import Mathlib

/-!
Verification of the ai-movie-recap pipeline core against its specification.

The Rust sources are shallowly embedded: `f64` arithmetic becomes exact `ℚ`
arithmetic, `i32` becomes `ℤ`, fallible operations return `Option`, and the
effectful loops become explicit state-passing functions driven by an oracle
list describing the outcome of each external call.
-/

namespace MovieRecap

/-! ## Retiming engine (src/ffmpeg.rs, ffmpeg_make_adjusted_clip) -/

/-- Away-from-zero rounding of a rational, the semantics of f64::round in Rust. -/
def rustRound (x : ℚ) : ℤ :=
  if x < 0 then -(⌊-x + 1/2⌋) else ⌊x + 1/2⌋

/-- const MAX_VIDEO_SPEEDUP: f64 = 1.75 (src/ffmpeg.rs). -/
def MAX_VIDEO_SPEEDUP : ℚ := 7/4

/-- The output of the retiming engine: the chosen source window and speed. -/
structure AdjustedClip where
  use_start : ℤ
  use_end : ℤ
  speed : ℚ
  deriving DecidableEq, Repr

/-- Final hard clamp of the speed to [0.05, 20.0] (src/ffmpeg.rs lines 164-169). -/
def clampSpeed (s : ℚ) : ℚ :=
  let s1 := if s < 1/20 then 1/20 else s
  if s1 > 20 then 20 else s1

/-- Desired source duration in the speed-capped branch:
min(narration_dur * MAX_VIDEO_SPEEDUP, orig_seg_dur), floored at 1.0
(src/ffmpeg.rs lines 110-116). -/
def desiredSrcDur (orig_seg_dur narration_dur : ℚ) : ℚ :=
  let d0 := narration_dur * MAX_VIDEO_SPEEDUP
  let d1 := if d0 > orig_seg_dur then orig_seg_dur else d0
  if d1 < 1 then 1 else d1

/-- Symmetric re-centering of the shrunk window about the midpoint followed by
the edge clamps, exactly as in src/ffmpeg.rs lines 118-136. -/
def clampedWindow (start_s end_s : ℤ) (desired : ℚ) : ℚ × ℚ :=
  let center : ℚ := ((start_s : ℚ) + (end_s : ℚ)) / 2
  let half := desired / 2
  let ns0 := center - half
  let ne0 := center + half
  let ns1 := if ns0 < (start_s : ℚ) then (start_s : ℚ) else ns0
  let ne1 := if ns0 < (start_s : ℚ) then (start_s : ℚ) + desired else ne0
  let ns2 := if ne1 > (end_s : ℚ) then (end_s : ℚ) - desired else ns1
  let ne2 := if ne1 > (end_s : ℚ) then (end_s : ℚ) else ne1
  let ns3 := if ns2 < (start_s : ℚ) then (start_s : ℚ) else ns2
  let ne3 := if ne2 > (end_s : ℚ) then (end_s : ℚ) else ne2
  (ns3, ne3)

/-- The speed-cap branch of ffmpeg_make_adjusted_clip (src/ffmpeg.rs lines
109-162): shrink the window, round to integer seconds, force a minimum
1-second window, recompute the speed and re-clamp it to the cap. -/
def speedCapBranch (start_s end_s : ℤ) (narration_dur : ℚ) : AdjustedClip :=
  let orig_seg_dur : ℚ := ((end_s - start_s : ℤ) : ℚ)
  let desired := desiredSrcDur orig_seg_dur narration_dur
  let w := clampedWindow start_s end_s desired
  let us := rustRound w.1
  let ue0 := rustRound w.2
  let ue := if ue0 ≤ us then us + 1 else ue0
  let new_seg_dur : ℚ := ((ue - us : ℤ) : ℚ)
  let sp := new_seg_dur / narration_dur
  let sp1 := if sp > MAX_VIDEO_SPEEDUP then MAX_VIDEO_SPEEDUP else sp
  ⟨us, ue, clampSpeed sp1⟩

/-- Pure core of ffmpeg_make_adjusted_clip (src/ffmpeg.rs lines 92-209):
computes the source window [use_start, use_end] and the playback speed handed
to the media command; `none` is the early Ok(false) return for degenerate
segments. -/
def ffmpeg_make_adjusted_clip (start_s end_s : ℤ) (narration_dur : ℚ) :
    Option AdjustedClip :=
  let orig_seg_dur : ℚ := ((end_s - start_s : ℤ) : ℚ)
  if orig_seg_dur ≤ 1/10 ∨ narration_dur ≤ 1/10 then
    none
  else if orig_seg_dur / narration_dur > MAX_VIDEO_SPEEDUP then
    some (speedCapBranch start_s end_s narration_dur)
  else
    some ⟨start_s, end_s, clampSpeed (orig_seg_dur / narration_dur)⟩

example : ffmpeg_make_adjusted_clip 100 120 8 = some ⟨103, 117, 7/4⟩ := by
  with_unfolding_all decide
example : ffmpeg_make_adjusted_clip 50 62 10 = some ⟨50, 62, 6/5⟩ := by
  with_unfolding_all decide
example : ffmpeg_make_adjusted_clip 0 1 100 = some ⟨0, 1, 1/20⟩ := by
  with_unfolding_all decide

/-! ### Facts about away-from-zero rounding -/

theorem rustRound_mono {x y : ℚ} (h : x ≤ y) : rustRound x ≤ rustRound y := by
  unfold rustRound
  by_cases hx : x < 0 <;> by_cases hy : y < 0
  · rw [if_pos hx, if_pos hy]
    have hf : (⌊-y + 1/2⌋ : ℤ) ≤ ⌊-x + 1/2⌋ := Int.floor_mono (by linarith)
    omega
  · rw [if_pos hx, if_neg hy]
    push_neg at hy
    have h1 : (0:ℤ) ≤ ⌊-x + 1/2⌋ := Int.floor_nonneg.mpr (by linarith)
    have h2 : (0:ℤ) ≤ ⌊y + 1/2⌋ := Int.floor_nonneg.mpr (by linarith)
    omega
  · exact (hx (lt_of_le_of_lt h hy)).elim
  · rw [if_neg hx, if_neg hy]
    exact Int.floor_mono (by linarith)

theorem rustRound_intCast (n : ℤ) : rustRound (n : ℚ) = n := by
  have h0 : (⌊(1/2 : ℚ)⌋ : ℤ) = 0 := by norm_num
  unfold rustRound
  by_cases hn : (n : ℚ) < 0
  · rw [if_pos hn]
    have he : -(n : ℚ) + 1/2 = ((-n : ℤ) : ℚ) + 1/2 := by push_cast; ring
    rw [he, Int.floor_int_add, h0]
    omega
  · rw [if_neg hn, Int.floor_int_add, h0]
    omega

theorem rustRound_add_one (x : ℚ) : rustRound x + 1 ≤ rustRound (x + 1) := by
  unfold rustRound
  by_cases hx : x < 0 <;> by_cases hy : x + 1 < 0
  · rw [if_pos hx, if_pos hy]
    have he : -(x + 1) + 1/2 = (-x + 1/2) + ((-1 : ℤ) : ℚ) := by push_cast; ring
    rw [he, Int.floor_add_int]
    omega
  · rw [if_pos hx, if_neg hy]
    have ha := Int.sub_one_lt_floor (x + 1 + 1/2)
    have hb := Int.sub_one_lt_floor (-x + 1/2)
    have hsum : (0 : ℚ) < (⌊x + 1 + 1/2⌋ : ℚ) + (⌊-x + 1/2⌋ : ℚ) := by linarith
    have hsum2 : (0 : ℤ) < ⌊x + 1 + 1/2⌋ + ⌊-x + 1/2⌋ := by exact_mod_cast hsum
    omega
  · exact absurd (by linarith : x < 0) hx
  · rw [if_neg hx, if_neg hy]
    have he : x + 1 + 1/2 = (x + 1/2) + ((1 : ℤ) : ℚ) := by push_cast; ring
    rw [he, Int.floor_add_int]

/-! ### Bounds on the pieces of the retiming engine -/

theorem clampSpeed_mem (s : ℚ) : 1/20 ≤ clampSpeed s ∧ clampSpeed s ≤ 20 := by
  simp only [clampSpeed]
  split_ifs <;> constructor <;> linarith

theorem one_le_desiredSrcDur (seg d : ℚ) : 1 ≤ desiredSrcDur seg d := by
  simp only [desiredSrcDur]
  split_ifs <;> linarith

theorem desiredSrcDur_le (seg d : ℚ) (h : 1 ≤ seg) : desiredSrcDur seg d ≤ seg := by
  simp only [desiredSrcDur]
  split_ifs <;> linarith

theorem clampedWindow_spec (start_s end_s : ℤ) (desired : ℚ)
    (hd1 : 1 ≤ desired) (hde : (start_s : ℚ) + desired ≤ (end_s : ℚ)) :
    (start_s : ℚ) ≤ (clampedWindow start_s end_s desired).1 ∧
    (clampedWindow start_s end_s desired).2 ≤ (end_s : ℚ) ∧
    (clampedWindow start_s end_s desired).2 =
      (clampedWindow start_s end_s desired).1 + desired := by
  simp only [clampedWindow]
  by_cases h1 : ((start_s : ℚ) + (end_s : ℚ)) / 2 - desired / 2 < (start_s : ℚ)
  · have hne1 : ¬ ((start_s : ℚ) + desired > (end_s : ℚ)) := by linarith
    simp only [if_pos h1, if_neg hne1, lt_irrefl, if_false]
    refine ⟨?_, ?_, ?_⟩ <;> first | trivial | linarith
  · simp only [if_neg h1]
    by_cases h2 : ((start_s : ℚ) + (end_s : ℚ)) / 2 + desired / 2 > (end_s : ℚ)
    · have hns2 : ¬ ((end_s : ℚ) - desired < (start_s : ℚ)) := by linarith
      simp only [if_pos h2, if_neg hns2, gt_iff_lt, lt_irrefl, if_false]
      refine ⟨?_, ?_, ?_⟩ <;> first | trivial | linarith | ring
    · push_neg at h1
      simp only [if_neg h2, if_neg (not_lt.mpr h1)]
      push_neg at h2
      refine ⟨?_, ?_, ?_⟩ <;> first | trivial | exact h1 | exact h2 | ring

theorem speedCapBranch_window (start_s end_s : ℤ) (d : ℚ)
    (hlt : start_s < end_s) :
    start_s ≤ (speedCapBranch start_s end_s d).use_start ∧
    (speedCapBranch start_s end_s d).use_end ≤ end_s ∧
    (speedCapBranch start_s end_s d).use_start < (speedCapBranch start_s end_s d).use_end := by
  have hseg1 : (1 : ℚ) ≤ ((end_s - start_s : ℤ) : ℚ) := by
    have h : (1 : ℤ) ≤ end_s - start_s := by omega
    exact_mod_cast h
  have hd1 := one_le_desiredSrcDur ((end_s - start_s : ℤ) : ℚ) d
  have hdle := desiredSrcDur_le ((end_s - start_s : ℤ) : ℚ) d hseg1
  have hc : ((end_s - start_s : ℤ) : ℚ) = (end_s : ℚ) - (start_s : ℚ) := by push_cast; ring
  have hde : (start_s : ℚ) + desiredSrcDur ((end_s - start_s : ℤ) : ℚ) d ≤ (end_s : ℚ) := by
    linarith [hc]
  obtain ⟨hw1, hw2, hw3⟩ := clampedWindow_spec start_s end_s _ hd1 hde
  have hus : start_s ≤ rustRound (clampedWindow start_s end_s
      (desiredSrcDur ((end_s - start_s : ℤ) : ℚ) d)).1 := by
    have := rustRound_mono hw1
    rwa [rustRound_intCast] at this
  have hue : rustRound (clampedWindow start_s end_s
      (desiredSrcDur ((end_s - start_s : ℤ) : ℚ) d)).2 ≤ end_s := by
    have := rustRound_mono hw2
    rwa [rustRound_intCast] at this
  have hlt2 : rustRound (clampedWindow start_s end_s
        (desiredSrcDur ((end_s - start_s : ℤ) : ℚ) d)).1 + 1 ≤
      rustRound (clampedWindow start_s end_s
        (desiredSrcDur ((end_s - start_s : ℤ) : ℚ) d)).2 := by
    have hstep := rustRound_add_one (clampedWindow start_s end_s
      (desiredSrcDur ((end_s - start_s : ℤ) : ℚ) d)).1
    have hmono : rustRound ((clampedWindow start_s end_s
          (desiredSrcDur ((end_s - start_s : ℤ) : ℚ) d)).1 + 1) ≤
        rustRound (clampedWindow start_s end_s
          (desiredSrcDur ((end_s - start_s : ℤ) : ℚ) d)).2 := by
      apply rustRound_mono
      rw [hw3]
      linarith
    omega
  simp only [speedCapBranch]
  rw [if_neg (by omega)]
  exact ⟨hus, hue, by omega⟩

/-- Claim C1: for integer segment bounds with end - start > 0.1 and narration
duration d > 0.1, the chosen window [use_start, use_end] satisfies
start <= use_start, use_end <= end and use_start < use_end, on both the
uncapped and the speed-capped path of the retiming engine. -/
theorem retiming_window_containment (start_s end_s : ℤ) (d : ℚ)
    (hseg : ((end_s - start_s : ℤ) : ℚ) > 1/10) (hd : d > 1/10) :
    ∃ c, ffmpeg_make_adjusted_clip start_s end_s d = some c ∧
      start_s ≤ c.use_start ∧ c.use_end ≤ end_s ∧ c.use_start < c.use_end := by
  have hlt : start_s < end_s := by
    by_contra hc
    push_neg at hc
    have h0 : ((end_s - start_s : ℤ) : ℚ) ≤ 0 := by
      have h1 : end_s - start_s ≤ 0 := by omega
      exact_mod_cast h1
    linarith
  simp only [ffmpeg_make_adjusted_clip]
  rw [if_neg (by push_neg; constructor <;> linarith)]
  by_cases hsp : ((end_s - start_s : ℤ) : ℚ) / d > MAX_VIDEO_SPEEDUP
  · rw [if_pos hsp]
    obtain ⟨h1, h2, h3⟩ := speedCapBranch_window start_s end_s d hlt
    exact ⟨_, rfl, h1, h2, h3⟩
  · rw [if_neg hsp]
    exact ⟨_, rfl, le_refl _, le_refl _, hlt⟩

/-- Witness for C1 at the spec scenario [100, 120] with d = 8. -/
theorem retiming_window_containment_witness :
    (((120 - 100 : ℤ) : ℚ) > 1/10 ∧ (8 : ℚ) > 1/10) ∧
    ∃ c, ffmpeg_make_adjusted_clip 100 120 8 = some c ∧
      (100 : ℤ) ≤ c.use_start ∧ c.use_end ≤ 120 ∧ c.use_start < c.use_end :=
  ⟨⟨by norm_num, by norm_num⟩,
    retiming_window_containment 100 120 8 (by norm_num) (by norm_num)⟩

/-- Claim C2: for end - start > 0.1 and d > 0.1, the final playback speed lies
in [0.05, 20.0] regardless of whether the speed-cap branch was taken. -/
theorem retiming_speed_bounds (start_s end_s : ℤ) (d : ℚ)
    (hseg : ((end_s - start_s : ℤ) : ℚ) > 1/10) (hd : d > 1/10) :
    ∃ c, ffmpeg_make_adjusted_clip start_s end_s d = some c ∧
      1/20 ≤ c.speed ∧ c.speed ≤ 20 := by
  simp only [ffmpeg_make_adjusted_clip]
  rw [if_neg (by push_neg; constructor <;> linarith)]
  by_cases hsp : ((end_s - start_s : ℤ) : ℚ) / d > MAX_VIDEO_SPEEDUP
  · rw [if_pos hsp]
    refine ⟨_, rfl, ?_, ?_⟩
    · simp only [speedCapBranch]
      exact (clampSpeed_mem _).1
    · simp only [speedCapBranch]
      exact (clampSpeed_mem _).2
  · rw [if_neg hsp]
    exact ⟨_, rfl, (clampSpeed_mem _).1, (clampSpeed_mem _).2⟩

/-- Witness for C2 at the speed-capped spec scenario [100, 120] with d = 8. -/
theorem retiming_speed_bounds_witness :
    (((120 - 100 : ℤ) : ℚ) > 1/10 ∧ (8 : ℚ) > 1/10) ∧
    ∃ c, ffmpeg_make_adjusted_clip 100 120 8 = some c ∧
      1/20 ≤ c.speed ∧ c.speed ≤ 20 :=
  ⟨⟨by norm_num, by norm_num⟩,
    retiming_speed_bounds 100 120 8 (by norm_num) (by norm_num)⟩

/-- Counterexample to claim C5 as frozen: at segment [0, 1] with narration
duration 100, the naive speed 1/100 is at most 1.75, yet the final speed is
the clamp floor 0.05, not seg / d = 0.01. -/
theorem retiming_uncapped_counterexample :
    ffmpeg_make_adjusted_clip 0 1 100 = some ⟨0, 1, 1/20⟩ ∧
    ((1 - 0 : ℤ) : ℚ) / 100 ≠ 1/20 := by
  constructor
  · with_unfolding_all decide
  · norm_num

/-- Claim C5 (amended): with end - start > 0.1, d > 0.1 and naive speed
seg / d at most 1.75, the engine uses the full original window; the final
speed equals seg / d provided seg / d is at least the hard clamp floor 0.05. -/
theorem retiming_uncapped_identity (start_s end_s : ℤ) (d : ℚ)
    (hseg : ((end_s - start_s : ℤ) : ℚ) > 1/10) (hd : d > 1/10)
    (hcap : ((end_s - start_s : ℤ) : ℚ) / d ≤ MAX_VIDEO_SPEEDUP)
    (hmin : 1/20 ≤ ((end_s - start_s : ℤ) : ℚ) / d) :
    ffmpeg_make_adjusted_clip start_s end_s d =
      some ⟨start_s, end_s, ((end_s - start_s : ℤ) : ℚ) / d⟩ := by
  simp only [ffmpeg_make_adjusted_clip]
  rw [if_neg (by push_neg; constructor <;> linarith), if_neg (not_lt.mpr hcap)]
  have hcl : clampSpeed (((end_s - start_s : ℤ) : ℚ) / d) =
      ((end_s - start_s : ℤ) : ℚ) / d := by
    unfold clampSpeed
    simp only [if_neg (not_lt.mpr hmin)]
    rw [if_neg (by simp only [MAX_VIDEO_SPEEDUP] at hcap; push_neg; linarith)]
  rw [hcl]

/-- Witness for amended C5 at the spec scenario [50, 62] with d = 10. -/
theorem retiming_uncapped_identity_witness :
    (((62 - 50 : ℤ) : ℚ) > 1/10 ∧ (10 : ℚ) > 1/10 ∧
      ((62 - 50 : ℤ) : ℚ) / 10 ≤ MAX_VIDEO_SPEEDUP ∧
      1/20 ≤ ((62 - 50 : ℤ) : ℚ) / 10) ∧
    ffmpeg_make_adjusted_clip 50 62 10 = some ⟨50, 62, ((62 - 50 : ℤ) : ℚ) / 10⟩ :=
  ⟨⟨by norm_num, by norm_num, by norm_num [MAX_VIDEO_SPEEDUP], by norm_num⟩,
    retiming_uncapped_identity 50 62 10 (by norm_num) (by norm_num)
      (by norm_num [MAX_VIDEO_SPEEDUP]) (by norm_num)⟩

/-! ## Background-music assembly loop (src/generator.rs lines 669-703)

The while loop draws a random song, probes it, trims a fragment and appends
it to the BGM manifest.  It is embedded as a state machine driven by an
oracle list of song-draw outcomes; the real loop draws randomly forever, so
a run that exhausts its finite oracle while the guard still holds models a
loop that is still running. -/

/-- Outcome of one song draw as observed by the loop: the duration probe
fails, or it returns a duration `sd` and the later trim succeeds or fails. -/
inductive SongDraw where
  | probeFail
  | probed (sd : ℚ) (trimOk : Bool)
  deriving DecidableEq, Repr

/-- Loop state: `covered` seconds so far, the fragment counter `part`, and
the durations of the fragments appended to the manifest, in order. -/
structure BgmState where
  covered : ℚ
  part : ℤ
  frags : List ℚ
  deriving DecidableEq, Repr

/-- Initial loop state: covered = 0.0, part = 0, empty manifest. -/
def bgmInit : BgmState := ⟨0, 0, []⟩

/-- The loop guard `covered + 0.01 < final_dur` (src/generator.rs line 671). -/
def bgmGuard (final_dur : ℚ) (st : BgmState) : Bool := st.covered + 1/100 < final_dur

/-- One iteration body (src/generator.rs lines 672-702).  Returns the next
state and whether the `part > 200` safety break fired.  A draw whose probe
fails, whose duration is <= 60, whose avail = sd - 40 is <= 1, or whose trim
fails corresponds to `continue`: the state is unchanged. -/
def bgmStep (final_dur : ℚ) (st : BgmState) (d : SongDraw) : BgmState × Bool :=
  match d with
  | .probeFail => (st, false)
  | .probed sd trimOk =>
    if sd ≤ 60 then (st, false)
    else
      let start : ℚ := 40
      let avail := sd - start
      if avail ≤ 1 then (st, false)
      else
        let need := final_dur - st.covered
        let take := if avail < need then avail else need
        if trimOk = false then (st, false)
        else
          let st1 : BgmState := ⟨st.covered + take, st.part + 1, st.frags ++ [take]⟩
          (st1, if st1.part > 200 then true else false)

/-- The BGM assembly while loop, driven by a finite oracle of draws. -/
def bgmRun (final_dur : ℚ) : List SongDraw → BgmState → BgmState
  | [], st => st
  | d :: ds, st =>
    if bgmGuard final_dur st then
      let r := bgmStep final_dur st d
      if r.2 then r.1 else bgmRun final_dur ds r.1
    else st

/-- A draw the spec's coverage property quantifies over: probing succeeded
with a duration above 60 seconds and the trim succeeds. -/
def goodDraw : SongDraw → Bool
  | .probeFail => false
  | .probed sd trimOk => (60 < sd) && trimOk

example :
    (bgmRun 130 (List.replicate 3 (SongDraw.probed 90 true)) bgmInit).frags =
      [50, 50, 30] := by
  with_unfolding_all decide

example : (bgmRun 130 (List.replicate 2 (SongDraw.probed 90 true)) bgmInit).covered = 100 := by
  with_unfolding_all decide

theorem bgmRun_part_le (final_dur : ℚ) (ds : List SongDraw) (st : BgmState)
    (h : st.part ≤ 200) : (bgmRun final_dur ds st).part ≤ 201 := by
  induction ds generalizing st with
  | nil => simpa [bgmRun] using by omega
  | cons d ds ih =>
    simp only [bgmRun]
    by_cases hg : bgmGuard final_dur st
    · rw [if_pos hg]
      cases d with
      | probeFail => exact ih st h
      | probed sd trimOk =>
        simp only [bgmStep]
        by_cases h60 : sd ≤ 60
        · rw [if_pos h60]
          exact ih st h
        · rw [if_neg h60]
          by_cases hav : sd - 40 ≤ 1
          · rw [if_pos hav]
            exact ih st h
          · rw [if_neg hav]
            by_cases htr : trimOk = false
            · rw [if_pos htr]
              exact ih st h
            · rw [if_neg htr]
              by_cases hbrk : st.part + 1 > 200
              · simp only [if_pos hbrk, if_true]
                exact (by omega : st.part + 1 ≤ (201 : ℤ))
              · simp only [if_neg hbrk, if_false]
                exact ih _ ((by omega : st.part + 1 ≤ (200 : ℤ)))
    · rw [if_neg hg]
      omega

theorem bgmRun_part_eq_frags (final_dur : ℚ) (ds : List SongDraw) (st : BgmState)
    (h : st.part = (st.frags.length : ℤ)) :
    (bgmRun final_dur ds st).part = ((bgmRun final_dur ds st).frags.length : ℤ) := by
  induction ds generalizing st with
  | nil => simpa [bgmRun] using h
  | cons d ds ih =>
    simp only [bgmRun]
    by_cases hg : bgmGuard final_dur st
    · rw [if_pos hg]
      cases d with
      | probeFail => exact ih st h
      | probed sd trimOk =>
        simp only [bgmStep]
        by_cases h60 : sd ≤ 60
        · rw [if_pos h60]; exact ih st h
        · rw [if_neg h60]
          by_cases hav : sd - 40 ≤ 1
          · rw [if_pos hav]; exact ih st h
          · rw [if_neg hav]
            by_cases htr : trimOk = false
            · rw [if_pos htr]; exact ih st h
            · rw [if_neg htr]
              have hlen : st.part + 1 =
                  (((st.frags ++ [if sd - 40 < final_dur - st.covered
                      then sd - 40 else final_dur - st.covered]).length : ℕ) : ℤ) := by
                simp [List.length_append]
                omega
              by_cases hbrk : st.part + 1 > 200
              · simp only [if_pos hbrk, if_true]
                exact hlen
              · simp only [if_neg hbrk, if_false]
                exact ih _ hlen
    · rw [if_neg hg]
      exact h

theorem bgmRun_sum_eq (final_dur : ℚ) (ds : List SongDraw) (st : BgmState)
    (h : st.frags.sum = st.covered) :
    (bgmRun final_dur ds st).frags.sum = (bgmRun final_dur ds st).covered := by
  induction ds generalizing st with
  | nil => simpa [bgmRun] using h
  | cons d ds ih =>
    simp only [bgmRun]
    by_cases hg : bgmGuard final_dur st
    · rw [if_pos hg]
      cases d with
      | probeFail => exact ih st h
      | probed sd trimOk =>
        simp only [bgmStep]
        by_cases h60 : sd ≤ 60
        · rw [if_pos h60]; exact ih st h
        · rw [if_neg h60]
          by_cases hav : sd - 40 ≤ 1
          · rw [if_pos hav]; exact ih st h
          · rw [if_neg hav]
            by_cases htr : trimOk = false
            · rw [if_pos htr]; exact ih st h
            · rw [if_neg htr]
              have hsum : (st.frags ++ [if sd - 40 < final_dur - st.covered
                  then sd - 40 else final_dur - st.covered]).sum =
                  st.covered + (if sd - 40 < final_dur - st.covered
                  then sd - 40 else final_dur - st.covered) := by
                rw [List.sum_append, h]
                simp
              by_cases hbrk : st.part + 1 > 200
              · simp only [if_pos hbrk, if_true]
                exact hsum
              · simp only [if_neg hbrk, if_false]
                exact ih _ hsum
    · rw [if_neg hg]
      exact h

theorem bgmRun_coverage_aux (final_dur : ℚ) (ds : List SongDraw) (st : BgmState)
    (hgood : ∀ d ∈ ds, goodDraw d = true)
    (hfuel : final_dur ≤ st.covered + 20 * ds.length + 1/100) :
    final_dur ≤ (bgmRun final_dur ds st).covered + 1/100 ∨
      200 < (bgmRun final_dur ds st).part := by
  induction ds generalizing st with
  | nil =>
    left
    simpa [bgmRun] using by simpa using hfuel
  | cons d ds ih =>
    simp only [bgmRun]
    by_cases hg : bgmGuard final_dur st
    · rw [if_pos hg]
      have hd := hgood d (List.mem_cons_self d ds)
      cases d with
      | probeFail => exact absurd hd (by simp [goodDraw])
      | probed sd trimOk =>
        have hsd : 60 < sd := by
          simp only [goodDraw, Bool.and_eq_true, decide_eq_true_eq] at hd
          exact hd.1
        have htr : trimOk = true := by
          simp only [goodDraw, Bool.and_eq_true] at hd
          exact hd.2
        simp only [bgmStep]
        rw [if_neg (by linarith : ¬ sd ≤ 60), if_neg (by linarith : ¬ sd - 40 ≤ 1),
          if_neg (by simp [htr] : ¬ trimOk = false)]
        by_cases hbrk : st.part + 1 > 200
        · simp only [if_pos hbrk, if_true]
          right
          exact (by omega : (200 : ℤ) < st.part + 1)
        · simp only [if_neg hbrk, if_false]
          apply ih
          · exact fun x hx => hgood x (List.mem_cons_of_mem _ hx)
          · show final_dur ≤ st.covered + (if sd - 40 < final_dur - st.covered
              then sd - 40 else final_dur - st.covered) + 20 * ds.length + 1/100
            push_cast [List.length_cons] at hfuel
            by_cases hless : sd - 40 < final_dur - st.covered
            · rw [if_pos hless]
              linarith
            · rw [if_neg hless]
              have h0 : (0 : ℚ) ≤ 20 * ds.length := by positivity
              linarith
    · rw [if_neg hg]
      left
      simp only [bgmGuard, decide_eq_true_eq] at hg
      linarith [not_lt.mp hg]

set_option maxRecDepth 40000 in
/-- Counterexample to claim C3 as frozen: the break fires only once the
fragment counter exceeds 200, so with a huge target and a pool of 62-second
songs the loop appends 201 fragments to the manifest, not at most 200. -/
theorem bgm_ceiling_counterexample :
    200 < (bgmRun 10000 (List.replicate 201 (SongDraw.probed 62 true))
      bgmInit).frags.length := by
  with_unfolding_all decide

/-- Claim C3 (amended): the loop appends at most 201 fragments to the BGM
manifest (the break fires after the 201st append), and an iteration whose
probe or trim fails leaves the loop state unchanged, so the fragment ceiling
bounds appended fragments but does not by itself terminate a loop whose
draws all fail. -/
theorem bgm_fragment_ceiling :
    (∀ (final_dur : ℚ) (ds : List SongDraw),
        (bgmRun final_dur ds bgmInit).frags.length ≤ 201) ∧
    (∀ (final_dur sd : ℚ) (st : BgmState),
        bgmStep final_dur st SongDraw.probeFail = (st, false) ∧
        bgmStep final_dur st (SongDraw.probed sd false) = (st, false)) := by
  constructor
  · intro final_dur ds
    have h1 := bgmRun_part_le final_dur ds bgmInit (by simp [bgmInit])
    have h2 := bgmRun_part_eq_frags final_dur ds bgmInit (by simp [bgmInit])
    omega
  · intro final_dur sd st
    refine ⟨rfl, ?_⟩
    simp only [bgmStep]
    split_ifs <;> rfl

/-- Claim C4: if every draw in the oracle probes above 60 seconds and trims
successfully, and the oracle is long enough for the real (unbounded) loop
(each successful draw adds more than 20 seconds or finishes coverage), then
when the loop exits the summed duration of the appended fragments is at
least final_dur - 0.01, unless it stopped at the fragment ceiling. -/
theorem bgm_coverage (final_dur : ℚ) (ds : List SongDraw)
    (hgood : ∀ d ∈ ds, goodDraw d = true)
    (hfuel : final_dur ≤ 20 * ds.length + 1/100) :
    final_dur ≤ (bgmRun final_dur ds bgmInit).frags.sum + 1/100 ∨
      200 < (bgmRun final_dur ds bgmInit).part := by
  have hsum := bgmRun_sum_eq final_dur ds bgmInit (by simp [bgmInit])
  have haux := bgmRun_coverage_aux final_dur ds bgmInit hgood
    (by simpa [bgmInit] using hfuel)
  rw [hsum]
  exact haux

/-- Witness for C4 at the spec scenario: target 130s, draws from a pool of
90-second songs; coverage completes in three fragments. -/
theorem bgm_coverage_witness :
    (130 : ℚ) ≤ (bgmRun 130 (List.replicate 7 (SongDraw.probed 90 true))
        bgmInit).frags.sum + 1/100 ∨
      200 < (bgmRun 130 (List.replicate 7 (SongDraw.probed 90 true)) bgmInit).part :=
  bgm_coverage 130 (List.replicate 7 (SongDraw.probed 90 true))
    (by decide) (by norm_num)

theorem bgmRun_covered_le (final_dur : ℚ) (ds : List SongDraw) (st : BgmState)
    (h : st.covered ≤ final_dur) : (bgmRun final_dur ds st).covered ≤ final_dur := by
  induction ds generalizing st with
  | nil => simpa [bgmRun] using h
  | cons d ds ih =>
    simp only [bgmRun]
    by_cases hg : bgmGuard final_dur st
    · rw [if_pos hg]
      cases d with
      | probeFail => exact ih st h
      | probed sd trimOk =>
        simp only [bgmStep]
        by_cases h60 : sd ≤ 60
        · rw [if_pos h60]; exact ih st h
        · rw [if_neg h60]
          by_cases hav : sd - 40 ≤ 1
          · rw [if_pos hav]; exact ih st h
          · rw [if_neg hav]
            by_cases htr : trimOk = false
            · rw [if_pos htr]; exact ih st h
            · rw [if_neg htr]
              have hcov : st.covered + (if sd - 40 < final_dur - st.covered
                  then sd - 40 else final_dur - st.covered) ≤ final_dur := by
                by_cases hless : sd - 40 < final_dur - st.covered
                · rw [if_pos hless]; linarith
                · rw [if_neg hless]; linarith
              by_cases hbrk : st.part + 1 > 200
              · simp only [if_pos hbrk, if_true]
                exact hcov
              · simp only [if_neg hbrk, if_false]
                exact ih _ hcov
    · rw [if_neg hg]
      exact h

/-- Claim C10: starting from covered = 0, each appended fragment takes
min(avail, final_dur - covered) seconds, so after every iteration the
covered duration (equivalently, the summed manifest duration) never exceeds
the target final_dur. -/
theorem bgm_covered_never_exceeds_target (final_dur : ℚ) (ds : List SongDraw)
    (h : 0 ≤ final_dur) :
    (bgmRun final_dur ds bgmInit).covered ≤ final_dur ∧
    (bgmRun final_dur ds bgmInit).frags.sum ≤ final_dur := by
  have hcov := bgmRun_covered_le final_dur ds bgmInit (by simpa [bgmInit] using h)
  have hsum := bgmRun_sum_eq final_dur ds bgmInit (by simp [bgmInit])
  exact ⟨hcov, by rw [hsum]; exact hcov⟩

/-- Witness for C10 at the spec scenario: target 130s, two 90-second draws
cover exactly 100 <= 130. -/
theorem bgm_covered_never_exceeds_target_witness :
    (0 : ℚ) ≤ 130 ∧
    ((bgmRun 130 (List.replicate 2 (SongDraw.probed 90 true)) bgmInit).covered ≤ 130 ∧
      (bgmRun 130 (List.replicate 2 (SongDraw.probed 90 true)) bgmInit).frags.sum ≤ 130) :=
  ⟨by norm_num,
    bgm_covered_never_exceeds_target 130 (List.replicate 2 (SongDraw.probed 90 true))
      (by norm_num)⟩

/-! ## Planner retry classifier
(src/api/openai.rs, openai_resp_should_retry_without_script) -/

/-- What the classifier reads from a failure payload after serde parsing: an
empty body, a body that fails to parse, a parsed body with no "error" object,
or an error object carrying optional string `code` and `message` fields. -/
inductive RespPayload where
  | empty
  | unparsable
  | noError
  | withError (code msg : Option String)
  deriving DecidableEq, Repr

/-- Rust str::to_lowercase, for the ASCII payloads the classifier compares. -/
def strToLower (s : String) : String := String.mk (s.data.map Char.toLower)

/-- Rust str::contains for a string pattern: some index of `hay` starts an
occurrence of `needle`. -/
def containsSub (hay needle : String) : Bool :=
  (List.range (hay.data.length + 1)).any
    (fun i => needle.data.isPrefixOf (hay.data.drop i))

example : containsSub "maximum context length" "context" = true := by decide
example : containsSub "invalid api key" "context" = false := by decide

/-- The fixed message trigger phrases (src/api/openai.rs lines 94-105). -/
def retryTriggers : List String :=
  ["too large", "message is too long", "maximum context length",
   "context length", "reduce", "token", "request is too large",
   "unicode decode error", "invalid unicode", "invalid body"]

/-- openai_resp_should_retry_without_script (src/api/openai.rs lines 62-112):
an empty or unparsable body, or one without an error object, is not
retry-worthy; otherwise the code family check and the message phrase check
each may set the flag. -/
def openai_resp_should_retry_without_script (p : RespPayload) : Bool :=
  match p with
  | .empty => false
  | .unparsable => false
  | .noError => false
  | .withError code msg =>
    let yes0 := false
    let yes1 :=
      match code with
      | none => yes0
      | some c =>
        let code_lower := strToLower c
        if code_lower = "context_length_exceeded" ∨ code_lower = "invalid_json"
            ∨ containsSub code_lower "context" = true then true else yes0
    match msg with
    | none => yes1
    | some m =>
      let msg_lower := strToLower m
      if retryTriggers.any (fun t => containsSub msg_lower t) then true else yes1

example : openai_resp_should_retry_without_script
    (RespPayload.withError (some "context_length_exceeded") none) = true := by decide
example : openai_resp_should_retry_without_script
    (RespPayload.withError (some "invalid_api_key") (some "Incorrect API key provided."))
    = false := by decide

/-- Counterexample to claim C6 as frozen: a payload whose error code is the
unrelated authentication code invalid_api_key is still classified
retry-worthy when its message contains the trigger phrase "reduce", so an
unrelated code alone does not force the not-retry-worthy classification. -/
theorem retry_classifier_counterexample :
    openai_resp_should_retry_without_script
      (RespPayload.withError (some "invalid_api_key")
        (some "Please reduce the length of the messages.")) = true := by
  decide

/-- Claim C6 (amended): a payload whose error code lowercases to
context_length_exceeded is always retry-worthy; a payload with an unrelated
code (not in the code families, not containing "context") is not
retry-worthy provided its message, if any, contains none of the trigger
phrases. -/
theorem retry_classifier_spec :
    (∀ (code : String) (msg : Option String),
        strToLower code = "context_length_exceeded" →
        openai_resp_should_retry_without_script
          (RespPayload.withError (some code) msg) = true) ∧
    (∀ (code : String) (msg : Option String),
        strToLower code ≠ "context_length_exceeded" →
        strToLower code ≠ "invalid_json" →
        containsSub (strToLower code) "context" = false →
        (∀ m, msg = some m →
          (retryTriggers.any fun t => containsSub (strToLower m) t) = false) →
        openai_resp_should_retry_without_script
          (RespPayload.withError (some code) msg) = false) := by
  constructor
  · intro code msg hcode
    simp only [openai_resp_should_retry_without_script]
    rw [if_pos (Or.inl hcode)]
    cases msg with
    | none => rfl
    | some m =>
      by_cases ht : (retryTriggers.any fun t => containsSub (strToLower m) t) = true
      · simp [ht]
      · simp [ht]
  · intro code msg h1 h2 h3 hmsg
    simp only [openai_resp_should_retry_without_script]
    rw [if_neg (by simp [h1, h2, h3])]
    cases msg with
    | none => rfl
    | some m =>
      dsimp only
      rw [hmsg m rfl]
      rfl

/-- Witness for amended C6: the context-length code classifies retry-worthy,
and an authentication failure with a neutral message does not. -/
theorem retry_classifier_spec_witness :
    openai_resp_should_retry_without_script
      (RespPayload.withError (some "Context_Length_Exceeded") none) = true ∧
    openai_resp_should_retry_without_script
      (RespPayload.withError (some "invalid_api_key")
        (some "Incorrect API key provided.")) = false := by
  constructor
  · exact retry_classifier_spec.1 "Context_Length_Exceeded" none (by decide)
  · refine retry_classifier_spec.2 "invalid_api_key"
      (some "Incorrect API key provided.") ?_ ?_ ?_ ?_
    · decide
    · decide
    · decide
    · intro m hm
      cases hm
      decide

/-! ## Plan request (src/api/openai.rs, openai_make_plan) -/

/-- One planned clip (src/clip_plan.rs). -/
structure ClipPlan where
  start : ℤ
  stop : ℤ
  narration : String
  deriving DecidableEq, Repr

/-- The ordered clip plan (src/clip_plan.rs); Default gives an empty list. -/
structure ClipPlanList where
  items : List ClipPlan
  deriving DecidableEq, Repr

def ClipPlanList.default : ClipPlanList := ⟨[]⟩

/-- The data openai_make_plan extracts from one HTTP exchange: the success
flag of the status, the payload as seen by the retry classifier, the result
of openai_extract_output_text, and the result of ClipPlanList::from_json on
the extracted text. -/
structure PlanResponse where
  statusSuccess : Bool
  raw : RespPayload
  extracted : Option String
  parsePlan : Option ClipPlanList
  deriving DecidableEq, Repr

/-- Control flow of openai_make_plan after the HTTP call (src/api/openai.rs
lines 156-184).  `none` models the anyhow error propagated when from_json
fails; otherwise the pair (plan, retry_without_script flag) is returned. -/
def openai_make_plan (hasScript : Bool) (resp : PlanResponse) :
    Option (ClipPlanList × Bool) :=
  if resp.statusSuccess = false then
    some (ClipPlanList.default,
      hasScript && openai_resp_should_retry_without_script resp.raw)
  else
    match resp.extracted with
    | none =>
      some (ClipPlanList.default,
        hasScript && openai_resp_should_retry_without_script resp.raw)
    | some _ =>
      match resp.parsePlan with
      | none => none
      | some plan => some (plan, false)

/-- Claim C9: the plan-request operation never returns the retry flag set
together with a usable plan: whenever it returns (plan, true) the plan has
zero items. -/
theorem plan_retry_implies_empty (hasScript : Bool) (resp : PlanResponse)
    (plan : ClipPlanList) (retry : Bool)
    (h : openai_make_plan hasScript resp = some (plan, retry))
    (hr : retry = true) : plan.items = [] := by
  unfold openai_make_plan at h
  by_cases hs : resp.statusSuccess = false
  · rw [if_pos hs] at h
    have hp : plan = ClipPlanList.default := by
      injection h with h1
      exact (congrArg Prod.fst h1).symm
    rw [hp]
    rfl
  · rw [if_neg hs] at h
    cases he : resp.extracted with
    | none =>
      rw [he] at h
      have hp : plan = ClipPlanList.default := by
        injection h with h1
        exact (congrArg Prod.fst h1).symm
      rw [hp]
      rfl
    | some t =>
      rw [he] at h
      cases hpp : resp.parsePlan with
      | none =>
        rw [hpp] at h
        exact absurd h (by simp)
      | some p =>
        rw [hpp] at h
        injection h with h1
        have hfalse : retry = false := (congrArg Prod.snd h1).symm
        rw [hfalse] at hr
        exact absurd hr (by simp)

/-- Witness for C9: a failed HTTP status with a context-length error code and
a script present yields the empty default plan with the retry flag set. -/
theorem plan_retry_implies_empty_witness :
    openai_make_plan true
      ⟨false, RespPayload.withError (some "context_length_exceeded") none,
        none, none⟩ = some (ClipPlanList.default, true) ∧
    ClipPlanList.default.items = [] :=
  ⟨by decide,
    plan_retry_implies_empty true
      ⟨false, RespPayload.withError (some "context_length_exceeded") none,
        none, none⟩
      ClipPlanList.default true (by decide) rfl⟩

/-! ## Batch driver resumability
(src/generator.rs, output_already_exists and run_generation lines 788-807) -/

/-- One directory entry seen by the batch loop: the derived title and whether
the file extension is mp4 (case-insensitively). -/
structure MovieEntry where
  title : String
  isMp4 : Bool
  deriving DecidableEq, Repr

/-- Existence check output/<title>.mp4 (src/generator.rs lines 745-748),
supplied as an oracle for the filesystem. -/
def output_already_exists (outputExists : String → Bool) (title : String) : Bool :=
  outputExists title

/-- What the batch loop does with one entry: skip non-mp4 files, skip titles
whose final output already exists, otherwise invoke the per-movie pipeline,
which succeeds or fails. -/
inductive EntryOutcome where
  | notMp4
  | skippedExisting
  | done
  | failed
  deriving DecidableEq, Repr

/-- Per-entry branch structure of the loop body (src/generator.rs 790-806). -/
def entryOutcome (outputExists processMovie : String → Bool)
    (e : MovieEntry) : EntryOutcome :=
  if e.isMp4 = false then .notMp4
  else if output_already_exists outputExists e.title then .skippedExisting
  else if processMovie e.title then .done else .failed

/-- Fold step of the batch loop: the accumulator is the `processed` success
counter together with the titles for which process_movie was invoked. -/
def runStep (outputExists processMovie : String → Bool)
    (acc : ℤ × List String) (e : MovieEntry) : ℤ × List String :=
  match entryOutcome outputExists processMovie e with
  | .notMp4 => acc
  | .skippedExisting => acc
  | .done => (acc.1 + 1, acc.2 ++ [e.title])
  | .failed => (acc.1, acc.2 ++ [e.title])

/-- run_generation (src/generator.rs lines 758-811) restricted to its batch
loop: returns the processed count and the titles the per-movie pipeline
(process_movie, the only source of per-movie external calls) was invoked on. -/
def run_generation (outputExists processMovie : String → Bool)
    (entries : List MovieEntry) : ℤ × List String :=
  entries.foldl (runStep outputExists processMovie) (0, [])

theorem run_generation_aux (outputExists processMovie : String → Bool)
    (entries : List MovieEntry) (acc : ℤ × List String) (title : String)
    (h : outputExists title = true) (hacc : title ∉ acc.2) :
    title ∉ (entries.foldl (runStep outputExists processMovie) acc).2 := by
  induction entries generalizing acc with
  | nil => simpa using hacc
  | cons e es ih =>
    simp only [List.foldl_cons]
    apply ih
    by_cases he : e.title = title
    · have hskip : entryOutcome outputExists processMovie e = .notMp4 ∨
          entryOutcome outputExists processMovie e = .skippedExisting := by
        simp only [entryOutcome, output_already_exists, he, h]
        by_cases hm : e.isMp4 = false
        · rw [if_pos hm]
          exact Or.inl rfl
        · rw [if_neg hm]
          simp
      rcases hskip with hs | hs <;> simp only [runStep, hs] <;> exact hacc
    · simp only [runStep]
      cases entryOutcome outputExists processMovie e with
      | notMp4 => exact hacc
      | skippedExisting => exact hacc
      | done =>
        simp only [List.mem_append, List.mem_singleton]
        push_neg
        exact ⟨hacc, fun hx => he hx.symm⟩
      | failed =>
        simp only [List.mem_append, List.mem_singleton]
        push_neg
        exact ⟨hacc, fun hx => he hx.symm⟩

/-- Claim C8: when output/<title>.mp4 already exists, a run never invokes the
per-movie pipeline for that title (so no per-movie external calls are made),
and any mp4 entry bearing that title is resolved immediately as
skippedExisting, directly from the already-existing final output. -/
theorem resumable_skip (outputExists processMovie : String → Bool)
    (entries : List MovieEntry) (title : String)
    (h : outputExists title = true) :
    title ∉ (run_generation outputExists processMovie entries).2 ∧
    ∀ e : MovieEntry, e.title = title → e.isMp4 = true →
      entryOutcome outputExists processMovie e = .skippedExisting := by
  constructor
  · exact run_generation_aux outputExists processMovie entries (0, []) title h
      (by simp)
  · intro e he hm
    simp only [entryOutcome, output_already_exists, he, h, hm]
    rfl

/-- Witness for C8: with Inception already in output/, the pipeline is only
invoked for Matrix, and the Inception entry resolves as skippedExisting. -/
theorem resumable_skip_witness :
    (fun t => t == "Inception") "Inception" = true ∧
    "Inception" ∉ (run_generation (fun t => t == "Inception") (fun _ => true)
        [⟨"Inception", true⟩, ⟨"Matrix", true⟩]).2 ∧
    entryOutcome (fun t => t == "Inception") (fun _ => true) ⟨"Inception", true⟩ =
      .skippedExisting :=
  ⟨by decide,
    (resumable_skip (fun t => t == "Inception") (fun _ => true)
      [⟨"Inception", true⟩, ⟨"Matrix", true⟩] "Inception" (by decide)).1,
    (resumable_skip (fun t => t == "Inception") (fun _ => true)
      [⟨"Inception", true⟩, ⟨"Matrix", true⟩] "Inception" (by decide)).2
      ⟨"Inception", true⟩ rfl rfl⟩

example :
    run_generation (fun t => t == "Inception") (fun _ => true)
      [⟨"Inception", true⟩, ⟨"Matrix", true⟩] = (1, ["Matrix"]) := by
  decide

/-! ## Subtitle normalization
(src/generator.rs, timestamp_to_seconds and convert_srt_timestamps_to_seconds)

Lines are worked with as explicit character lists, mirroring the scanning
done by the Rust string primitives.  The scanning loops are structural over
a fuel argument initialized to the string length (each step consumes at
least one character, so that fuel always suffices). -/

/-- Scanner of Rust String::replace(pat, "") for a nonempty pattern: delete
every non-overlapping occurrence, scanning left to right. -/
def removeSubGo (pat : List Char) : ℕ → List Char → List Char
  | _, [] => []
  | 0, s => s
  | fuel + 1, c :: rest =>
    if pat ≠ [] ∧ pat.isPrefixOf (c :: rest) then
      removeSubGo pat fuel (rest.drop (pat.length - 1))
    else c :: removeSubGo pat fuel rest

/-- Rust String::replace(pat, ""). -/
def removeSub (pat s : List Char) : List Char := removeSubGo pat s.length s

/-- The "<i>" italics marker. -/
def openTag : List Char := ['<', 'i', '>']

/-- The "</i>" italics marker. -/
def closeTag : List Char := ['<', '/', 'i', '>']

example : removeSub openTag "<i>Hello".data = "Hello".data := by decide
example : removeSub closeTag "Hello</i> x".data = "Hello x".data := by decide

/-- The " --> " separator of an SRT timing line. -/
def arrowSep : List Char := [' ', '-', '-', '>', ' ']

/-- Scanner of Rust str::split(" --> "): pieces between non-overlapping
left-to-right occurrences of the separator. -/
def splitArrowGo : ℕ → List Char → List (List Char)
  | _, [] => [[]]
  | 0, s => [s]
  | fuel + 1, c :: rest =>
    if arrowSep.isPrefixOf (c :: rest) then
      [] :: splitArrowGo fuel (rest.drop 4)
    else
      match splitArrowGo fuel rest with
      | [] => [[]]
      | h :: t => (c :: h) :: t

/-- Rust str::split(" --> "). -/
def splitArrow (s : List Char) : List (List Char) := splitArrowGo s.length s

example : splitArrow "a --> b".data = ["a".data, "b".data] := by decide
example : splitArrow "ab".data = ["ab".data] := by decide

/-- Rust str::split(&[sep1, sep2][..]): split at every separator char. -/
def splitChars (seps : List Char) : List Char → List (List Char)
  | [] => [[]]
  | c :: rest =>
    match splitChars seps rest with
    | [] => [[]]
    | h :: t => if c ∈ seps then [] :: h :: t else (c :: h) :: t

example : splitChars [':', ','] "00:01:05,300".data =
    ["00".data, "01".data, "05".data, "300".data] := by decide

/-- Rust str::parse::<i32>: optional sign, at least one character, all
ASCII digits, and the value must fit in i32. -/
def parseI32 (s : List Char) : Option ℤ :=
  let sd : ℤ × List Char :=
    match s with
    | '+' :: rest => (1, rest)
    | '-' :: rest => (-1, rest)
    | rest => (1, rest)
  if sd.2 = [] ∨ ¬ (sd.2.all Char.isDigit = true) then none
  else
    let v : ℤ := sd.1 * (sd.2.foldl (fun a c => a * 10 + ((c.toNat - 48 : ℕ) : ℤ)) 0)
    if v < -(2^31) ∨ 2^31 - 1 < v then none else some v

example : parseI32 "01".data = some 1 := by decide
example : parseI32 "-12".data = some (-12) := by decide
example : parseI32 "1a".data = none := by decide
example : parseI32 "".data = none := by decide

/-- timestamp_to_seconds (src/generator.rs lines 52-61): split on { :, , },
require exactly four fields, parse the first three as i32; the milliseconds
field is never parsed, so milliseconds truncate away. -/
def timestamp_to_seconds (ts : List Char) : Option ℤ :=
  let parts := splitChars [':', ','] ts
  if parts.length ≠ 4 then none
  else
    match parseI32 (parts.getD 0 []), parseI32 (parts.getD 1 []),
        parseI32 (parts.getD 2 []) with
    | some hh, some mm, some ss => some (hh * 3600 + mm * 60 + ss)
    | _, _, _ => none

example : timestamp_to_seconds "00:01:05,300".data = some 65 := by decide
example : timestamp_to_seconds "01:02:03".data = none := by decide

/-- Rust format! rendering of an i32. -/
def intToChars (z : ℤ) : List Char := (toString z).data

example : intToChars 65 = "65".data := by decide

/-- One iteration of the line loop of convert_srt_timestamps_to_seconds
(src/generator.rs lines 68-77): strip the italics markers, then rewrite
"A --> B" into "S1 --> S2" when both sides contain a colon and parse as
timestamps; otherwise the stripped line passes through. -/
def convert_srt_line (line : List Char) : List Char :=
  let line1 := removeSub closeTag (removeSub openTag line)
  let parts := splitArrow line1
  if parts.length = 2 ∧ ':' ∈ parts.getD 0 [] ∧ ':' ∈ parts.getD 1 [] then
    match timestamp_to_seconds (parts.getD 0 []),
        timestamp_to_seconds (parts.getD 1 []) with
    | some s1, some s2 => intToChars s1 ++ arrowSep ++ intToChars s2
    | _, _ => line1
  else line1

/-- convert_srt_timestamps_to_seconds (src/generator.rs lines 63-84): the
per-line rewrite over the lines of the subtitle file. -/
def convert_srt_timestamps_to_seconds (lines : List (List Char)) :
    List (List Char) :=
  lines.map convert_srt_line

example : convert_srt_line "00:01:05,300 --> 00:01:09,800".data =
    "65 --> 69".data := by decide
example : convert_srt_line "<i>Hello there.</i>".data = "Hello there.".data := by
  decide
example : convert_srt_line "12".data = "12".data := by decide

/-! ### Scanner lemmas -/

theorem isPrefixOf_head_false {c p0 : Char} (pat l : List Char) (h : c ≠ p0) :
    (p0 :: pat).isPrefixOf (c :: l) = false := by
  have hb : (p0 == c) = false := beq_eq_false_iff_ne.mpr (fun he => h he.symm)
  simp [List.isPrefixOf, hb]

theorem isPrefixOf_self_append (pat r : List Char) :
    pat.isPrefixOf (pat ++ r) = true := by
  induction pat with
  | nil => simp [List.isPrefixOf]
  | cons c cs ih => simp [List.isPrefixOf, ih]

theorem removeSubGo_nil (pat : List Char) (fuel : ℕ) :
    removeSubGo pat fuel [] = [] := by
  cases fuel <;> rfl

theorem removeSubGo_clean {p0 : Char} (pat : List Char) (hp : pat.head? = some p0)
    (A r : List Char) (hA : ∀ c ∈ A, c ≠ p0) :
    ∀ fuel : ℕ, A.length + r.length ≤ fuel →
    removeSubGo pat fuel (A ++ r) = A ++ removeSubGo pat (fuel - A.length) r := by
  induction A with
  | nil => intro fuel _; simp
  | cons c A ih =>
    intro fuel hf
    have hc : c ≠ p0 := hA c (by simp)
    obtain ⟨f, rfl⟩ : ∃ f, fuel = f + 1 := by
      cases fuel with
      | zero => exact absurd hf (by simp)
      | succ f => exact ⟨f, rfl⟩
    show removeSubGo pat (f + 1) (c :: (A ++ r)) =
      (c :: A) ++ removeSubGo pat (f + 1 - (c :: A).length) r
    simp only [removeSubGo]
    have hpre : pat.isPrefixOf (c :: (A ++ r)) = false := by
      cases pat with
      | nil => exact absurd hp (by simp)
      | cons q qs =>
        have hq : q = p0 := by simpa using hp
        subst hq
        exact isPrefixOf_head_false qs (A ++ r) hc
    rw [if_neg (by rw [hpre]; simp)]
    show c :: removeSubGo pat f (A ++ r) =
      (c :: A) ++ removeSubGo pat (f + 1 - (c :: A).length) r
    rw [ih (fun x hx => hA x (by simp [hx])) f (by simp at hf ⊢; omega)]
    have harith : f + 1 - (c :: A).length = f - A.length := by simp
    rw [harith]
    simp

theorem removeSubGo_skip (q : Char) (qs r : List Char) (f : ℕ) :
    removeSubGo (q :: qs) (f + 1) ((q :: qs) ++ r) = removeSubGo (q :: qs) f r := by
  simp only [List.cons_append, removeSubGo]
  rw [if_pos ⟨by simp, by simpa using isPrefixOf_self_append (q :: qs) r⟩]
  simp only [List.append_eq]
  have hd : (qs ++ r).drop ((q :: qs).length - 1) = r := by
    simp only [List.length_cons, Nat.add_sub_cancel]
    exact List.drop_left qs r
  rw [hd]

theorem removeSubGo_ident {p0 : Char} (pat : List Char) (hp : pat.head? = some p0)
    (s : List Char) (hs : ∀ c ∈ s, c ≠ p0) (fuel : ℕ) (hf : s.length ≤ fuel) :
    removeSubGo pat fuel s = s := by
  have h := removeSubGo_clean pat hp s [] hs fuel (by simpa using hf)
  simpa [removeSubGo_nil] using h

theorem removeSub_ident {p0 : Char} (pat : List Char) (hp : pat.head? = some p0)
    (s : List Char) (hs : ∀ c ∈ s, c ≠ p0) : removeSub pat s = s :=
  removeSubGo_ident pat hp s hs s.length (le_refl _)

theorem splitArrowGo_single (s : List Char) (hs : ∀ c ∈ s, c ≠ ' ') :
    ∀ fuel : ℕ, s.length ≤ fuel → splitArrowGo fuel s = [s] := by
  induction s with
  | nil => intro fuel _; cases fuel <;> rfl
  | cons c rest ih =>
    intro fuel hf
    obtain ⟨f, rfl⟩ : ∃ f, fuel = f + 1 := by
      cases fuel with
      | zero => exact absurd hf (by simp)
      | succ f => exact ⟨f, rfl⟩
    simp only [splitArrowGo]
    have hpre : arrowSep.isPrefixOf (c :: rest) = false := by
      simp only [arrowSep]
      exact isPrefixOf_head_false _ _ (hs c (by simp))
    rw [if_neg (by simp [hpre])]
    show (match splitArrowGo f rest with
      | [] => [[]]
      | h :: t => (c :: h) :: t) = [c :: rest]
    rw [ih (fun x hx => hs x (by simp [hx])) f (by simp at hf; omega)]

theorem splitArrowGo_pair (A B : List Char) (hA : ∀ c ∈ A, c ≠ ' ')
    (hB : ∀ c ∈ B, c ≠ ' ') :
    ∀ fuel : ℕ, A.length + 5 + B.length ≤ fuel →
    splitArrowGo fuel (A ++ arrowSep ++ B) = [A, B] := by
  induction A with
  | nil =>
    intro fuel hf
    obtain ⟨f, rfl⟩ : ∃ f, fuel = f + 1 := by
      cases fuel with
      | zero => exact absurd hf (by simp)
      | succ f => exact ⟨f, rfl⟩
    have hshape : ([] : List Char) ++ arrowSep ++ B =
        ' ' :: ('-' :: '-' :: '>' :: ' ' :: B) := by
      simp [arrowSep]
    rw [hshape]
    simp only [splitArrowGo]
    have hpre : arrowSep.isPrefixOf (' ' :: '-' :: '-' :: '>' :: ' ' :: B) = true := by
      simpa [arrowSep] using isPrefixOf_self_append arrowSep B
    rw [if_pos hpre]
    have hdrop : ('-' :: '-' :: '>' :: ' ' :: B).drop 4 = B := rfl
    rw [hdrop]
    rw [splitArrowGo_single B hB f (by simp at hf; omega)]
  | cons c A ih =>
    intro fuel hf
    obtain ⟨f, rfl⟩ : ∃ f, fuel = f + 1 := by
      cases fuel with
      | zero => exact absurd hf (by simp)
      | succ f => exact ⟨f, rfl⟩
    show splitArrowGo (f + 1) (c :: (A ++ arrowSep ++ B)) = [c :: A, B]
    simp only [splitArrowGo]
    have hpre : arrowSep.isPrefixOf (c :: (A ++ arrowSep ++ B)) = false := by
      simp only [arrowSep]
      exact isPrefixOf_head_false _ _ (hA c (by simp))
    rw [if_neg (by rw [hpre]; simp)]
    show (match splitArrowGo f (A ++ arrowSep ++ B) with
      | [] => [[]]
      | h :: t => (c :: h) :: t) = [c :: A, B]
    rw [ih (fun x hx => hA x (by simp [hx])) f (by simp at hf ⊢; omega)]

theorem splitArrow_pair (A B : List Char) (hA : ∀ c ∈ A, c ≠ ' ')
    (hB : ∀ c ∈ B, c ≠ ' ') : splitArrow (A ++ arrowSep ++ B) = [A, B] := by
  apply splitArrowGo_pair A B hA hB
  simp [arrowSep]
  omega

theorem splitChars_ne_nil (seps s : List Char) : splitChars seps s ≠ [] := by
  induction s with
  | nil => simp [splitChars]
  | cons c rest ih =>
    simp only [splitChars]
    cases h : splitChars seps rest with
    | nil => exact absurd h ih
    | cons a t =>
      by_cases hc : c ∈ seps <;> simp [hc]

theorem splitChars_single (seps A : List Char) (hA : ∀ c ∈ A, c ∉ seps) :
    splitChars seps A = [A] := by
  induction A with
  | nil => rfl
  | cons c A ih =>
    have hc : c ∉ seps := hA c (by simp)
    simp only [splitChars]
    rw [ih (fun x hx => hA x (by simp [hx]))]
    simp [hc]

theorem splitChars_sep (seps A r : List Char) (sep : Char) (hsep : sep ∈ seps)
    (hA : ∀ c ∈ A, c ∉ seps) :
    splitChars seps (A ++ sep :: r) = A :: splitChars seps r := by
  induction A with
  | nil =>
    simp only [List.nil_append, splitChars]
    cases h : splitChars seps r with
    | nil => exact absurd h (splitChars_ne_nil seps r)
    | cons a t => simp [hsep, h]
  | cons c A ih =>
    have hc : c ∉ seps := hA c (by simp)
    simp only [List.cons_append, splitChars, List.append_eq]
    rw [ih (fun x hx => hA x (by simp [hx]))]
    simp [hc]

/-! ### Italics-marker removal over decomposable lines -/

/-- A line decomposed into italics markers and marker-free text blocks. -/
inductive SrtSeg where
  | txt (s : List Char)
  | openI
  | closeI
  deriving DecidableEq, Repr

def flattenSegs : List SrtSeg → List Char
  | [] => []
  | SrtSeg.txt s :: rest => s ++ flattenSegs rest
  | SrtSeg.openI :: rest => openTag ++ flattenSegs rest
  | SrtSeg.closeI :: rest => closeTag ++ flattenSegs rest

def flattenNoOpen : List SrtSeg → List Char
  | [] => []
  | SrtSeg.txt s :: rest => s ++ flattenNoOpen rest
  | SrtSeg.openI :: rest => flattenNoOpen rest
  | SrtSeg.closeI :: rest => closeTag ++ flattenNoOpen rest

def plainSegs : List SrtSeg → List Char
  | [] => []
  | SrtSeg.txt s :: rest => s ++ plainSegs rest
  | SrtSeg.openI :: rest => plainSegs rest
  | SrtSeg.closeI :: rest => plainSegs rest

/-- The text blocks contain no < at all: markers do not overlap. -/
def cleanSegs (segs : List SrtSeg) : Prop :=
  ∀ s, SrtSeg.txt s ∈ segs → ∀ c ∈ s, c ≠ '<'

theorem removeSubGo_open_pass (segs : List SrtSeg) (hclean : cleanSegs segs) :
    ∀ fuel : ℕ, (flattenSegs segs).length ≤ fuel →
    removeSubGo openTag fuel (flattenSegs segs) = flattenNoOpen segs := by
  induction segs with
  | nil => intro fuel _; exact removeSubGo_nil _ _
  | cons seg rest ih =>
    intro fuel hf
    have hcr : cleanSegs rest := fun s hs => hclean s (by simp [hs])
    cases seg with
    | txt s =>
      have hcs : ∀ c ∈ s, c ≠ '<' := hclean s (by simp)
      show removeSubGo openTag fuel (s ++ flattenSegs rest) = s ++ flattenNoOpen rest
      rw [removeSubGo_clean openTag (show openTag.head? = some '<' from rfl) s
        (flattenSegs rest) hcs fuel (by simp [flattenSegs] at hf ⊢; omega)]
      rw [ih hcr (fuel - s.length) (by simp [flattenSegs] at hf; omega)]
    | openI =>
      obtain ⟨f, rfl⟩ : ∃ f, fuel = f + 1 := by
        cases fuel with
        | zero => exact absurd hf (by simp [flattenSegs, openTag])
        | succ f => exact ⟨f, rfl⟩
      show removeSubGo ('<' :: ['i', '>']) (f + 1)
        (('<' :: ['i', '>']) ++ flattenSegs rest) = flattenNoOpen rest
      rw [removeSubGo_skip]
      exact ih hcr f (by simp [flattenSegs, openTag] at hf; omega)
    | closeI =>
      obtain ⟨f, rfl⟩ : ∃ f, fuel = f + 1 := by
        cases fuel with
        | zero => exact absurd hf (by simp [flattenSegs, closeTag])
        | succ f => exact ⟨f, rfl⟩
      show removeSubGo openTag (f + 1) ('<' :: ('/' :: 'i' :: '>' :: flattenSegs rest)) =
        closeTag ++ flattenNoOpen rest
      simp only [removeSubGo]
      have hpre : openTag.isPrefixOf ('<' :: '/' :: 'i' :: '>' :: flattenSegs rest)
          = false := by
        have hi : (('i' : Char) == '/') = false := by decide
        simp [openTag, List.isPrefixOf, hi]
      rw [if_neg (by rw [hpre]; simp)]
      show '<' :: removeSubGo openTag f (['/', 'i', '>'] ++ flattenSegs rest) =
        closeTag ++ flattenNoOpen rest
      rw [removeSubGo_clean openTag (show openTag.head? = some '<' from rfl)
        ['/', 'i', '>'] (flattenSegs rest) (by decide) f
        (by simp [flattenSegs, closeTag] at hf ⊢; omega)]
      rw [ih hcr (f - ['/', 'i', '>'].length)
        (by simp [flattenSegs, closeTag] at hf ⊢; omega)]
      rfl

theorem removeSubGo_close_pass (segs : List SrtSeg) (hclean : cleanSegs segs) :
    ∀ fuel : ℕ, (flattenNoOpen segs).length ≤ fuel →
    removeSubGo closeTag fuel (flattenNoOpen segs) = plainSegs segs := by
  induction segs with
  | nil => intro fuel _; exact removeSubGo_nil _ _
  | cons seg rest ih =>
    intro fuel hf
    have hcr : cleanSegs rest := fun s hs => hclean s (by simp [hs])
    cases seg with
    | txt s =>
      have hcs : ∀ c ∈ s, c ≠ '<' := hclean s (by simp)
      show removeSubGo closeTag fuel (s ++ flattenNoOpen rest) = s ++ plainSegs rest
      rw [removeSubGo_clean closeTag (show closeTag.head? = some '<' from rfl) s
        (flattenNoOpen rest) hcs fuel (by simp [flattenNoOpen] at hf ⊢; omega)]
      rw [ih hcr (fuel - s.length) (by simp [flattenNoOpen] at hf; omega)]
    | openI =>
      show removeSubGo closeTag fuel (flattenNoOpen rest) = plainSegs rest
      exact ih hcr fuel (by simpa [flattenNoOpen] using hf)
    | closeI =>
      obtain ⟨f, rfl⟩ : ∃ f, fuel = f + 1 := by
        cases fuel with
        | zero => exact absurd hf (by simp [flattenNoOpen, closeTag])
        | succ f => exact ⟨f, rfl⟩
      show removeSubGo ('<' :: ['/', 'i', '>']) (f + 1)
        (('<' :: ['/', 'i', '>']) ++ flattenNoOpen rest) = plainSegs rest
      rw [removeSubGo_skip]
      exact ih hcr f (by simp [flattenNoOpen, closeTag] at hf; omega)

theorem removeSub_italics (segs : List SrtSeg) (h : cleanSegs segs) :
    removeSub closeTag (removeSub openTag (flattenSegs segs)) = plainSegs segs := by
  have h1 : removeSub openTag (flattenSegs segs) = flattenNoOpen segs :=
    removeSubGo_open_pass segs h (flattenSegs segs).length (le_refl _)
  rw [removeSub, h1]
  exact removeSubGo_close_pass segs h (flattenNoOpen segs).length (le_refl _)

/-! ### The HH:MM:SS,mmm timestamp shape -/

/-- Two-digit zero-padded decimal rendering of a timestamp field. -/
def pad2 (n : ℕ) : List Char := [Char.ofNat (48 + n / 10), Char.ofNat (48 + n % 10)]

/-- Three-digit zero-padded decimal rendering of the milliseconds field. -/
def pad3 (n : ℕ) : List Char :=
  [Char.ofNat (48 + n / 100), Char.ofNat (48 + n / 10 % 10), Char.ofNat (48 + n % 10)]

/-- The HH:MM:SS,mmm display form of a subtitle timestamp. -/
def renderTs (hh mm ss ms : ℕ) : List Char :=
  pad2 hh ++ ':' :: (pad2 mm ++ ':' :: (pad2 ss ++ ',' :: pad3 ms))

example : renderTs 0 1 5 300 = "00:01:05,300".data := by decide

theorem digitChar_facts (d : ℕ) (hd : d ≤ 9) :
    (Char.ofNat (48 + d)).isDigit = true ∧ Char.ofNat (48 + d) ≠ ' ' ∧
    Char.ofNat (48 + d) ≠ '<' ∧ Char.ofNat (48 + d) ≠ ':' ∧
    Char.ofNat (48 + d) ≠ ',' := by
  interval_cases d <;> exact (by decide)

theorem pad2_chars (n : ℕ) (hn : n ≤ 99) :
    ∀ c ∈ pad2 n, c.isDigit = true ∧ c ≠ ' ' ∧ c ≠ '<' ∧ c ≠ ':' ∧ c ≠ ',' := by
  intro c hc
  have h1 : n / 10 ≤ 9 := by omega
  have h2 : n % 10 ≤ 9 := by omega
  simp only [pad2, List.mem_cons, List.not_mem_nil, or_false] at hc
  rcases hc with rfl | rfl
  · exact digitChar_facts _ h1
  · exact digitChar_facts _ h2

theorem pad3_chars (n : ℕ) (hn : n ≤ 999) :
    ∀ c ∈ pad3 n, c.isDigit = true ∧ c ≠ ' ' ∧ c ≠ '<' ∧ c ≠ ':' ∧ c ≠ ',' := by
  intro c hc
  have h1 : n / 100 ≤ 9 := by omega
  have h2 : n / 10 % 10 ≤ 9 := by omega
  have h3 : n % 10 ≤ 9 := by omega
  simp only [pad3, List.mem_cons, List.not_mem_nil, or_false] at hc
  rcases hc with rfl | rfl | rfl
  · exact digitChar_facts _ h1
  · exact digitChar_facts _ h2
  · exact digitChar_facts _ h3

theorem renderTs_chars (hh mm ss ms : ℕ) (b1 : hh ≤ 99) (b2 : mm ≤ 99)
    (b3 : ss ≤ 99) (b4 : ms ≤ 999) :
    ∀ c ∈ renderTs hh mm ss ms, c ≠ ' ' ∧ c ≠ '<' := by
  rw [renderTs]
  refine List.forall_mem_append.mpr ⟨?_, ?_⟩
  · exact fun c hc => ⟨(pad2_chars hh b1 c hc).2.1, (pad2_chars hh b1 c hc).2.2.1⟩
  · refine List.forall_mem_cons.mpr ⟨by decide, ?_⟩
    refine List.forall_mem_append.mpr ⟨?_, ?_⟩
    · exact fun c hc => ⟨(pad2_chars mm b2 c hc).2.1, (pad2_chars mm b2 c hc).2.2.1⟩
    · refine List.forall_mem_cons.mpr ⟨by decide, ?_⟩
      refine List.forall_mem_append.mpr ⟨?_, ?_⟩
      · exact fun c hc => ⟨(pad2_chars ss b3 c hc).2.1, (pad2_chars ss b3 c hc).2.2.1⟩
      · refine List.forall_mem_cons.mpr ⟨by decide, ?_⟩
        exact fun c hc => ⟨(pad3_chars ms b4 c hc).2.1, (pad3_chars ms b4 c hc).2.2.1⟩

theorem pad2_not_sep (n : ℕ) (h : n ≤ 99) :
    ∀ c ∈ pad2 n, c ∉ ([':', ','] : List Char) := by
  intro c hc
  have hp := pad2_chars n h c hc
  simp [hp.2.2.2.1, hp.2.2.2.2]

theorem pad3_not_sep (n : ℕ) (h : n ≤ 999) :
    ∀ c ∈ pad3 n, c ∉ ([':', ','] : List Char) := by
  intro c hc
  have hp := pad3_chars n h c hc
  simp [hp.2.2.2.1, hp.2.2.2.2]

set_option maxRecDepth 40000 in
theorem parseI32_pad2_fin : ∀ n : Fin 100, parseI32 (pad2 n.val) = some (n.val : ℤ) := by
  decide

theorem parseI32_pad2 (n : ℕ) (h : n ≤ 99) : parseI32 (pad2 n) = some (n : ℤ) := by
  have hx := parseI32_pad2_fin ⟨n, by omega⟩
  simpa using hx

theorem timestamp_renderTs (hh mm ss ms : ℕ) (b1 : hh ≤ 99) (b2 : mm ≤ 99)
    (b3 : ss ≤ 99) (b4 : ms ≤ 999) :
    timestamp_to_seconds (renderTs hh mm ss ms) =
      some ((hh : ℤ) * 3600 + (mm : ℤ) * 60 + (ss : ℤ)) := by
  have hsplit : splitChars [':', ','] (renderTs hh mm ss ms) =
      [pad2 hh, pad2 mm, pad2 ss, pad3 ms] := by
    rw [renderTs]
    rw [splitChars_sep _ _ _ ':' (by decide) (pad2_not_sep hh b1)]
    rw [splitChars_sep _ _ _ ':' (by decide) (pad2_not_sep mm b2)]
    rw [splitChars_sep _ _ _ ',' (by decide) (pad2_not_sep ss b3)]
    rw [splitChars_single _ _ (pad3_not_sep ms b4)]
  simp only [timestamp_to_seconds, hsplit]
  rw [if_neg (by simp)]
  simp only [List.getD_cons_zero, List.getD_cons_succ]
  rw [parseI32_pad2 hh b1, parseI32_pad2 mm b2, parseI32_pad2 ss b3]

theorem convert_srt_line_renderTs (h1 m1 s1 ms1 h2 m2 s2 ms2 : ℕ)
    (b1 : h1 ≤ 99) (b2 : m1 ≤ 99) (b3 : s1 ≤ 99) (b4 : ms1 ≤ 999)
    (b5 : h2 ≤ 99) (b6 : m2 ≤ 99) (b7 : s2 ≤ 99) (b8 : ms2 ≤ 999) :
    convert_srt_line (renderTs h1 m1 s1 ms1 ++ arrowSep ++ renderTs h2 m2 s2 ms2) =
      intToChars ((h1 : ℤ) * 3600 + (m1 : ℤ) * 60 + (s1 : ℤ)) ++ arrowSep ++
      intToChars ((h2 : ℤ) * 3600 + (m2 : ℤ) * 60 + (s2 : ℤ)) := by
  have hA := renderTs_chars h1 m1 s1 ms1 b1 b2 b3 b4
  have hB := renderTs_chars h2 m2 s2 ms2 b5 b6 b7 b8
  have hlineLT : ∀ c ∈ renderTs h1 m1 s1 ms1 ++ arrowSep ++ renderTs h2 m2 s2 ms2,
      c ≠ '<' := by
    refine List.forall_mem_append.mpr ⟨List.forall_mem_append.mpr ⟨?_, ?_⟩, ?_⟩
    · exact fun c hc => (hA c hc).2
    · decide
    · exact fun c hc => (hB c hc).2
  have hident1 := removeSub_ident openTag (show openTag.head? = some '<' from rfl)
    (renderTs h1 m1 s1 ms1 ++ arrowSep ++ renderTs h2 m2 s2 ms2) hlineLT
  have hident2 := removeSub_ident closeTag (show closeTag.head? = some '<' from rfl)
    (renderTs h1 m1 s1 ms1 ++ arrowSep ++ renderTs h2 m2 s2 ms2) hlineLT
  have hsplit := splitArrow_pair (renderTs h1 m1 s1 ms1) (renderTs h2 m2 s2 ms2)
    (fun c hc => (hA c hc).1) (fun c hc => (hB c hc).1)
  simp only [convert_srt_line, hident1, hident2, hsplit]
  simp only [List.getD_cons_zero, List.getD_cons_succ]
  rw [if_pos ⟨by simp, by simp [renderTs], by simp [renderTs]⟩]
  rw [timestamp_renderTs h1 m1 s1 ms1 b1 b2 b3 b4,
    timestamp_renderTs h2 m2 s2 ms2 b5 b6 b7 b8]

/-- The condition under which the line loop rewrites a stripped line: two
arrow-separated parts, both containing a colon and both parsing. -/
def tsLineShape (l1 : List Char) : Prop :=
  (splitArrow l1).length = 2 ∧ ':' ∈ (splitArrow l1).getD 0 [] ∧
  ':' ∈ (splitArrow l1).getD 1 [] ∧
  (timestamp_to_seconds ((splitArrow l1).getD 0 [])).isSome = true ∧
  (timestamp_to_seconds ((splitArrow l1).getD 1 [])).isSome = true

instance (l1 : List Char) : Decidable (tsLineShape l1) := by
  unfold tsLineShape
  infer_instance

theorem convert_srt_line_passthrough (line : List Char)
    (h : ¬ tsLineShape (removeSub closeTag (removeSub openTag line))) :
    convert_srt_line line = removeSub closeTag (removeSub openTag line) := by
  simp only [convert_srt_line]
  by_cases hc : (splitArrow (removeSub closeTag (removeSub openTag line))).length = 2 ∧
      ':' ∈ (splitArrow (removeSub closeTag (removeSub openTag line))).getD 0 [] ∧
      ':' ∈ (splitArrow (removeSub closeTag (removeSub openTag line))).getD 1 []
  · rw [if_pos hc]
    cases hp0 : timestamp_to_seconds
        ((splitArrow (removeSub closeTag (removeSub openTag line))).getD 0 []) with
    | none => rfl
    | some v1 =>
      cases hp1 : timestamp_to_seconds
          ((splitArrow (removeSub closeTag (removeSub openTag line))).getD 1 []) with
      | none => rfl
      | some v2 =>
        exact absurd ⟨hc.1, hc.2.1, hc.2.2, by rw [hp0]; rfl, by rw [hp1]; rfl⟩ h
  · rw [if_neg hc]

/-- Counterexample to claim C7 as frozen: normalizing the line <<i>i> leaves
the line <i>, which still contains an italics marker: deleting the inner
marker splices the surrounding characters into a new one, so the conversion
does not remove every italics marker from every line. -/
theorem convert_srt_line_counterexample :
    convert_srt_line ['<', '<', 'i', '>', 'i', '>'] = ['<', 'i', '>'] ∧
    containsSub (String.mk (convert_srt_line ['<', '<', 'i', '>', 'i', '>'])) "<i>"
      = true := by
  constructor
  · decide
  · decide

/-- Claim C7 (amended): subtitle normalization (1) rewrites every line
"A --> B" whose sides are HH:MM:SS,mmm timestamps into "S1 --> S2" with
S = HH*3600 + MM*60 + SS, milliseconds dropped; (2) removes every italics
marker from every line that decomposes into non-overlapping markers and
marker-free text (a deletion can splice a new marker out of surrounding
characters, and that marker survives); and (3) passes every other line
through with only the marker deletion applied. -/
theorem convert_srt_line_spec :
    (∀ h1 m1 s1 ms1 h2 m2 s2 ms2 : ℕ, h1 ≤ 99 → m1 ≤ 99 → s1 ≤ 99 → ms1 ≤ 999 →
      h2 ≤ 99 → m2 ≤ 99 → s2 ≤ 99 → ms2 ≤ 999 →
      convert_srt_line (renderTs h1 m1 s1 ms1 ++ arrowSep ++ renderTs h2 m2 s2 ms2) =
        intToChars ((h1 : ℤ) * 3600 + (m1 : ℤ) * 60 + (s1 : ℤ)) ++ arrowSep ++
        intToChars ((h2 : ℤ) * 3600 + (m2 : ℤ) * 60 + (s2 : ℤ))) ∧
    (∀ segs : List SrtSeg, cleanSegs segs →
      removeSub closeTag (removeSub openTag (flattenSegs segs)) = plainSegs segs) ∧
    (∀ line : List Char, ¬ tsLineShape (removeSub closeTag (removeSub openTag line)) →
      convert_srt_line line = removeSub closeTag (removeSub openTag line)) :=
  ⟨convert_srt_line_renderTs, removeSub_italics, convert_srt_line_passthrough⟩

/-- Witness for amended C7: the timestamp line 00:01:05,300 --> 00:01:09,800
becomes 65 --> 69, the line <i>Hi</i> becomes Hi, and the line 12 passes
through unchanged. -/
theorem convert_srt_line_spec_witness :
    convert_srt_line (renderTs 0 1 5 300 ++ arrowSep ++ renderTs 0 1 9 800) =
      intToChars ((0 : ℤ) * 3600 + (1 : ℤ) * 60 + (5 : ℤ)) ++ arrowSep ++
      intToChars ((0 : ℤ) * 3600 + (1 : ℤ) * 60 + (9 : ℤ)) ∧
    removeSub closeTag (removeSub openTag (flattenSegs
      [SrtSeg.openI, SrtSeg.txt ['H', 'i'], SrtSeg.closeI])) =
      plainSegs [SrtSeg.openI, SrtSeg.txt ['H', 'i'], SrtSeg.closeI] ∧
    convert_srt_line ['1', '2'] =
      removeSub closeTag (removeSub openTag ['1', '2']) := by
  refine ⟨convert_srt_line_spec.1 0 1 5 300 0 1 9 800 (by decide) (by decide)
      (by decide) (by decide) (by decide) (by decide) (by decide) (by decide),
    convert_srt_line_spec.2.1 _ ?_, convert_srt_line_spec.2.2 _ ?_⟩
  · intro s hs
    have hs2 : s = ['H', 'i'] := by simpa [cleanSegs] using hs
    subst hs2
    decide
  · decide

end MovieRecap
